import Mathlib

set_option maxHeartbeats 1000000

/-
Verification of the physics core of `billiard.py` (a 2D elastic-collision
ball simulation).  The Python source is shallowly embedded over exact real
arithmetic (the spec's properties are stated "exact over real arithmetic,
within floating tolerance over floats").  Python code that can raise
(`Vector.normalize` divides by the cached length, raising ZeroDivisionError
on a zero-length vector) is modelled with `Option`: `none` is an uncaught
exception propagating out of the call.
-/

namespace Billiard

/-- Euclidean distance between two points, as `math.dist` in the source. -/
noncomputable def pdist (p q : ℝ × ℝ) : ℝ :=
  Real.sqrt ((p.1 - q.1) ^ 2 + (p.2 - q.2) ^ 2)

/-- `class Vector` (billiard.py lines 10-16): slots `start_pos`, `end_pos`,
and a cached `length` set by the constructor to `dist(end_pos, start_pos)`.
The cache is a plain stored field: later in-place mutation of `end_pos`
(as in `Ball.update`) does not recompute it. -/
structure Vector where
  start_pos : ℝ × ℝ
  end_pos : ℝ × ℝ
  length : ℝ

/-- `Vector.__init__`: stores both endpoints and caches
`length = dist(end_pos, start_pos)`. -/
noncomputable def Vector.make (end_pos start_pos : ℝ × ℝ) : Vector :=
  ⟨start_pos, end_pos, pdist end_pos start_pos⟩

/-- `Vector(end_pos=...)` with the default `start_pos=(0, 0)`. -/
noncomputable def Vector.ofEnd (end_pos : ℝ × ℝ) : Vector :=
  Vector.make end_pos (0, 0)

/-- `Vector.normalize` (lines 18-24): divides the displacement by the cached
`length`.  Python raises ZeroDivisionError when `length == 0`; that failure
is modelled as `none`. -/
noncomputable def Vector.normalize (v : Vector) : Option Vector :=
  if v.length = 0 then none
  else some (Vector.ofEnd
    ((v.end_pos.1 - v.start_pos.1) / v.length,
     (v.end_pos.2 - v.start_pos.2) / v.length))

/-- `Vector.add` (lines 26-32): componentwise sum of the `end_pos` fields,
result has the default `start_pos=(0, 0)`. -/
noncomputable def Vector.add (v w : Vector) : Vector :=
  Vector.ofEnd (v.end_pos.1 + w.end_pos.1, v.end_pos.2 + w.end_pos.2)

/-- `Vector.mul` applied to another Vector (line 44): the dot product of the
`end_pos` fields. -/
def Vector.dot (v w : Vector) : ℝ :=
  v.end_pos.1 * w.end_pos.1 + v.end_pos.2 * w.end_pos.2

/-- `Vector.mul` applied to a scalar (lines 44-48): scales `end_pos`,
result has the default `start_pos=(0, 0)`. -/
noncomputable def Vector.smul (v : Vector) (k : ℝ) : Vector :=
  Vector.ofEnd (v.end_pos.1 * k, v.end_pos.2 * k)

/-- `math.radians`: degrees to radians. -/
noncomputable def radiansDeg (x : ℝ) : ℝ := x * Real.pi / 180

/-- `class Ball` (lines 72-108).  The `window`, `color` and `width` slots are
rendering-only and carry no physics state, so they are not modelled. -/
structure Ball where
  x : ℝ
  y : ℝ
  radius : ℝ
  mass : ℝ
  vector : Vector

/-- `Ball.__init__` (lines 75-83): stores the center, the radius, sets
`mass = radius` (no validation of any parameter), and builds the velocity
vector `(velocity*cos(radians(angle)), velocity*sin(radians(angle)))`. -/
noncomputable def Ball.init (center : ℝ × ℝ) (radius velocity angle : ℝ) : Ball :=
  ⟨center.1, center.2, radius, radius,
   Vector.ofEnd (velocity * Real.cos (radiansDeg angle),
                 velocity * Real.sin (radiansDeg angle))⟩

/-- `Ball.calculate_velocity` (lines 85-89): unit normal from `ball` to
`other` (may raise on coincident centers, hence `Option`), unit tangent
`(-n.y, n.x)`, then the 1-D elastic formula on the normal component plus the
unchanged tangential component:
`((n·v1*(m1-m2) + (2*m2*n)·v2) / (m1+m2)) * n + (t·v1) * t`. -/
noncomputable def Ball.calculate_velocity (ball other : Ball) : Option Vector :=
  match (Vector.make (other.x, other.y) (ball.x, ball.y)).normalize with
  | none => none
  | some unit_normal =>
    let unit_tangent := Vector.ofEnd (-unit_normal.end_pos.2, unit_normal.end_pos.1)
    some (Vector.add
      (Vector.smul unit_normal
        ((Vector.dot unit_normal ball.vector * (ball.mass - other.mass)
          + Vector.dot (Vector.smul unit_normal (2 * other.mass)) other.vector)
         / (ball.mass + other.mass)))
      (Vector.smul unit_tangent (Vector.dot unit_tangent ball.vector)))

/-- `Ball.collision` (lines 91-95): when the center distance is strictly
below the sum of radii, both new velocities are computed from the incoming
state and then written by one simultaneous tuple assignment; otherwise the
pair is untouched.  A normalization failure inside either
`calculate_velocity` call is not caught, so it propagates (`none`). -/
noncomputable def Ball.collision (self other : Ball) : Option (Ball × Ball) :=
  if pdist (self.x, self.y) (other.x, other.y) < self.radius + other.radius then
    match Ball.calculate_velocity self other, Ball.calculate_velocity other self with
    | some vec1, some vec2 =>
        some ({ self with vector := vec1 }, { other with vector := vec2 })
    | _, _ => none
  else some (self, other)

/-- `Ball.update` (lines 97-105): per axis, when the leading edge passes the
far bound (`a := x + r > W`) or the trailing edge passes zero, the velocity
component is negated in place on `end_pos` (the cached `length` is NOT
recomputed) and the coordinate is set to `fabs(a*W - r)`; then the (possibly
flipped) velocity is added to the position. -/
noncomputable def Ball.update (b : Ball) (W H : ℝ) : Ball :=
  let xHit := b.x + b.radius > W ∨ b.x - b.radius < 0
  let yHit := b.y + b.radius > H ∨ b.y - b.radius < 0
  let ex := if xHit then -b.vector.end_pos.1 else b.vector.end_pos.1
  let ey := if yHit then -b.vector.end_pos.2 else b.vector.end_pos.2
  let x1 := if xHit then |(if b.x + b.radius > W then W else 0) - b.radius| else b.x
  let y1 := if yHit then |(if b.y + b.radius > H then H else 0) - b.radius| else b.y
  { b with
    x := x1 + ex
    y := y1 + ey
    vector := { b.vector with end_pos := (ex, ey) } }

/-- The pairwise collision pass of `Window.update` (line 140): fold one ball
against every later ball in order, threading the mutated states, as
`itertools.combinations(balls, 2)` does over the shared objects.  `none`
models an exception escaping the pass. -/
noncomputable def collideWithAll (b : Ball) : List Ball → Option (Ball × List Ball)
  | [] => some (b, [])
  | c :: rest =>
    match Ball.collision b c with
    | none => none
    | some p =>
      match collideWithAll p.1 rest with
      | none => none
      | some q => some (q.1, p.2 :: q.2)

/-- Recursion scaffold for `resolvePairs`: the first argument is fuel equal
to the list length (collideWithAll preserves the length of its list
argument, see `collideWithAll_length`). -/
noncomputable def resolvePairsAux : Nat → List Ball → Option (List Ball)
  | 0, l => some l
  | _ + 1, [] => some []
  | n + 1, b :: rest =>
    match collideWithAll b rest with
    | none => none
    | some p =>
      match resolvePairsAux n p.2 with
      | none => none
      | some l => some (p.1 :: l)

/-- All unordered pairs in combination order, sequential-update policy, as
the comprehension on line 140 of the source. -/
noncomputable def resolvePairs (l : List Ball) : Option (List Ball) :=
  resolvePairsAux l.length l

/-- The right-click removal of `Window.event_handler` (line 161):
`[balls.remove(ball) for ball in filter(pred, balls) if ball in balls]`.
The `filter` iterator walks the list by index while `remove` shifts later
elements left, so after a removal the immediately following element is
skipped.  Balls compare by object identity in Python (no `__eq__`), which a
positional traversal models exactly.  The predicate is
`dist((ball.x, ball.y), pos) < ball.radius`. -/
noncomputable def removeBalls (pos : ℝ × ℝ) : List Ball → List Ball
  | [] => []
  | [b] => if pdist (b.x, b.y) pos < b.radius then [] else [b]
  | b :: c :: rest =>
    if pdist (b.x, b.y) pos < b.radius then c :: removeBalls pos rest
    else b :: removeBalls pos (c :: rest)

/-- Invariant of every velocity vector held by a Ball: built with the
default origin `start_pos=(0, 0)` and a cached `length` equal to the true
Euclidean distance from `end_pos` to `start_pos`. -/
def velInv (v : Vector) : Prop :=
  v.start_pos = (0, 0) ∧ v.length = pdist v.end_pos v.start_pos

/-- Closed form of the velocity returned by `Ball.calculate_velocity` when
normalization succeeds (components spelled out). -/
noncomputable def collisionVel (b1 b2 : Ball) : ℝ × ℝ :=
  let L := pdist (b2.x, b2.y) (b1.x, b1.y)
  let nx := (b2.x - b1.x) / L
  let ny := (b2.y - b1.y) / L
  let S := ((nx * b1.vector.end_pos.1 + ny * b1.vector.end_pos.2) * (b1.mass - b2.mass)
      + (nx * (2 * b2.mass) * b2.vector.end_pos.1 + ny * (2 * b2.mass) * b2.vector.end_pos.2))
      / (b1.mass + b2.mass)
  let T := -ny * b1.vector.end_pos.1 + nx * b1.vector.end_pos.2
  (nx * S + -ny * T, ny * S + nx * T)

/-- Modelled from the spec (section 4.3, item 7): both bodies' new
velocities are functions of the pre-collision state of both bodies only,
and both velocity fields are then written together.  Trigger and response
as implemented by the source resolver. -/
noncomputable def collisionSimultaneousSpec (a b : Ball) : Option (Ball × Ball) :=
  if pdist (a.x, a.y) (b.x, b.y) < a.radius + b.radius then
    match Ball.calculate_velocity a b, Ball.calculate_velocity b a with
    | some va, some vb => some ({ a with vector := va }, { b with vector := vb })
    | _, _ => none
  else some (a, b)

/- Concrete bodies used by counterexamples and witnesses. -/

/-- Unit test pair: head-on transfer, distance 1, radii 1. -/
noncomputable def cbU1 : Ball := ⟨0, 0, 1, 1, Vector.ofEnd (1, 0)⟩

/-- Second body of the unit test pair, at rest at distance 1. -/
noncomputable def cbU2 : Ball := ⟨1, 0, 1, 1, Vector.ofEnd (0, 0)⟩

/-- Tangent pair: centers at distance exactly 2 = 1 + 1, approaching. -/
noncomputable def cbT1 : Ball := ⟨0, 0, 1, 1, Vector.ofEnd (1, 0)⟩

/-- Second body of the tangent pair. -/
noncomputable def cbT2 : Ball := ⟨2, 0, 1, 1, Vector.ofEnd (-1, 0)⟩

/-- Ball whose leading x-edge is past a 100-wide plane. -/
noncomputable def cbW : Ball := ⟨99, 50, 5, 5, Vector.ofEnd (1, 0)⟩

/-- Coincident pair, first body. -/
noncomputable def cbS1 : Ball := ⟨5, 5, 1, 1, Vector.ofEnd (0, 0)⟩

/-- Coincident pair, second body: exact same center. -/
noncomputable def cbS2 : Ball := ⟨5, 5, 1, 1, Vector.ofEnd (0, 0)⟩

/-- Removal test: three balls, all containing the point (0, 0). -/
noncomputable def cbA : Ball := ⟨0, 0, 10, 10, Vector.ofEnd (0, 0)⟩

/-- Removal test, second ball (also contains (0, 0)). -/
noncomputable def cbB : Ball := ⟨1, 0, 10, 10, Vector.ofEnd (0, 0)⟩

/-- Removal test, third ball (also contains (0, 0)). -/
noncomputable def cbC : Ball := ⟨2, 0, 10, 10, Vector.ofEnd (0, 0)⟩

/-- Removal test: a ball far from the origin. -/
noncomputable def cbF : Ball := ⟨50, 0, 10, 10, Vector.ofEnd (0, 0)⟩

/-- Resolved state of `cbU1` after colliding with `cbU2`. -/
noncomputable def cbU1' : Ball := ⟨0, 0, 1, 1, Vector.ofEnd (0, 0)⟩

/-- Resolved state of `cbU2` after colliding with `cbU1` (full transfer). -/
noncomputable def cbU2' : Ball := ⟨1, 0, 1, 1, Vector.ofEnd (1, 0)⟩

/- Basic facts about the Euclidean distance. -/

lemma pdist_nonneg (p q : ℝ × ℝ) : 0 ≤ pdist p q :=
  Real.sqrt_nonneg _

lemma pdist_sq (p q : ℝ × ℝ) :
    pdist p q ^ 2 = (p.1 - q.1) ^ 2 + (p.2 - q.2) ^ 2 :=
  Real.sq_sqrt (by positivity)

lemma pdist_comm (p q : ℝ × ℝ) : pdist p q = pdist q p := by
  unfold pdist
  congr 1
  ring

lemma pdist_eq_zero_iff (p q : ℝ × ℝ) : pdist p q = 0 ↔ p = q := by
  unfold pdist
  rw [show ((0 : ℝ) = Real.sqrt 0) from (Real.sqrt_zero).symm,
    Real.sqrt_inj (by positivity) le_rfl]
  constructor
  · intro h
    have h1 : (p.1 - q.1) ^ 2 = 0 := by nlinarith [sq_nonneg (p.1 - q.1), sq_nonneg (p.2 - q.2)]
    have h2 : (p.2 - q.2) ^ 2 = 0 := by nlinarith [sq_nonneg (p.1 - q.1), sq_nonneg (p.2 - q.2)]
    have e1 : p.1 = q.1 := by nlinarith [h1]
    have e2 : p.2 = q.2 := by nlinarith [h2]
    exact Prod.ext e1 e2
  · intro h
    rw [h]
    ring

/-- Evaluate `pdist` at a point where the squared distance has an exact
nonnegative square root. -/
lemma pdist_eval (x1 y1 x2 y2 d : ℝ) (hd : 0 ≤ d)
    (h : (x1 - x2) ^ 2 + (y1 - y2) ^ 2 = d ^ 2) :
    pdist (x1, y1) (x2, y2) = d := by
  unfold pdist
  simp only
  rw [h]
  exact Real.sqrt_sq hd

lemma pdist_sq' (x1 y1 x2 y2 : ℝ) :
    pdist (x1, y1) (x2, y2) ^ 2 = (x1 - x2) ^ 2 + (y1 - y2) ^ 2 :=
  pdist_sq _ _

/- Evaluation lemmas for the collision resolver. -/

lemma normalize_make_eq (e s : ℝ × ℝ) (h : pdist e s ≠ 0) :
    (Vector.make e s).normalize
      = some (Vector.ofEnd ((e.1 - s.1) / pdist e s, (e.2 - s.2) / pdist e s)) := by
  unfold Vector.normalize Vector.make
  simp only
  rw [if_neg h]

lemma calculate_velocity_eq (b1 b2 : Ball)
    (h : pdist (b2.x, b2.y) (b1.x, b1.y) ≠ 0) :
    Ball.calculate_velocity b1 b2 = some (Vector.ofEnd (collisionVel b1 b2)) := by
  unfold Ball.calculate_velocity
  rw [normalize_make_eq _ _ h]
  rfl

lemma collision_eq (b1 b2 : Ball) (hne : (b1.x, b1.y) ≠ (b2.x, b2.y))
    (hcol : pdist (b1.x, b1.y) (b2.x, b2.y) < b1.radius + b2.radius) :
    Ball.collision b1 b2
      = some ({ b1 with vector := Vector.ofEnd (collisionVel b1 b2) },
              { b2 with vector := Vector.ofEnd (collisionVel b2 b1) }) := by
  have h1 : pdist (b2.x, b2.y) (b1.x, b1.y) ≠ 0 := by
    rw [Ne, pdist_eq_zero_iff]
    intro hxy
    exact hne (hxy.symm)
  have h2 : pdist (b1.x, b1.y) (b2.x, b2.y) ≠ 0 := by
    rw [Ne, pdist_eq_zero_iff]
    exact hne
  unfold Ball.collision
  rw [if_pos hcol, calculate_velocity_eq _ _ h1, calculate_velocity_eq _ _ h2]

/-- With coincident centers and a positive radius sum the trigger fires, the
normalization inside `calculate_velocity` divides by zero and the error
propagates out of `collision` (modelled `none`). -/
lemma collision_coincident_none (b1 b2 : Ball)
    (hxy : (b1.x, b1.y) = (b2.x, b2.y)) (hr : 0 < b1.radius + b2.radius) :
    Ball.collision b1 b2 = none := by
  have hd : pdist (b1.x, b1.y) (b2.x, b2.y) = 0 := (pdist_eq_zero_iff _ _).mpr hxy
  have hd' : pdist (b2.x, b2.y) (b1.x, b1.y) = 0 := (pdist_eq_zero_iff _ _).mpr hxy.symm
  unfold Ball.collision
  rw [if_pos (by rw [hd]; exact hr)]
  unfold Ball.calculate_velocity
  unfold Vector.normalize Vector.make
  simp only
  rw [if_pos hd']

/-- Core algebra: for two bodies with distinct centers, the pair of
velocities produced by the resolver conserves total momentum (both
components) and total kinetic energy. -/
lemma collisionVel_conserves (b1 b2 : Ball)
    (hxy : ((b1.x, b1.y) : ℝ × ℝ) ≠ (b2.x, b2.y)) (hM : b1.mass + b2.mass ≠ 0) :
    (b1.mass * b1.vector.end_pos.1 + b2.mass * b2.vector.end_pos.1
       = b1.mass * (collisionVel b1 b2).1 + b2.mass * (collisionVel b2 b1).1)
    ∧ (b1.mass * b1.vector.end_pos.2 + b2.mass * b2.vector.end_pos.2
       = b1.mass * (collisionVel b1 b2).2 + b2.mass * (collisionVel b2 b1).2)
    ∧ (1 / 2 * b1.mass * (b1.vector.end_pos.1 ^ 2 + b1.vector.end_pos.2 ^ 2)
       + 1 / 2 * b2.mass * (b2.vector.end_pos.1 ^ 2 + b2.vector.end_pos.2 ^ 2)
       = 1 / 2 * b1.mass * ((collisionVel b1 b2).1 ^ 2 + (collisionVel b1 b2).2 ^ 2)
       + 1 / 2 * b2.mass * ((collisionVel b2 b1).1 ^ 2 + (collisionVel b2 b1).2 ^ 2)) := by
  obtain ⟨x1, y1, r1, m1, v1⟩ := b1
  obtain ⟨x2, y2, r2, m2, v2⟩ := b2
  obtain ⟨vs1, ve1, vl1⟩ := v1
  obtain ⟨vs2, ve2, vl2⟩ := v2
  obtain ⟨v1x, v1y⟩ := ve1
  obtain ⟨v2x, v2y⟩ := ve2
  have hL0 : pdist (x2, y2) (x1, y1) ≠ 0 := by
    rw [Ne, pdist_eq_zero_iff]
    intro h
    exact hxy (Prod.ext (congrArg Prod.fst h).symm (congrArg Prod.snd h).symm)
  have hM' : m2 + m1 ≠ 0 := by rw [add_comm]; exact hM
  simp only [collisionVel]
  rw [pdist_comm (x1, y1) (x2, y2)]
  rw [show (x1 - x2) / pdist (x2, y2) (x1, y1)
        = -((x2 - x1) / pdist (x2, y2) (x1, y1)) from by ring,
      show (y1 - y2) / pdist (x2, y2) (x1, y1)
        = -((y2 - y1) / pdist (x2, y2) (x1, y1)) from by ring]
  set nx := (x2 - x1) / pdist (x2, y2) (x1, y1) with hnx
  set ny := (y2 - y1) / pdist (x2, y2) (x1, y1) with hny
  have hn : nx ^ 2 + ny ^ 2 = 1 := by
    rw [hnx, hny, div_pow, div_pow, div_add_div_same, ← pdist_sq' x2 y2 x1 y1]
    exact div_self (pow_ne_zero 2 hL0)
  set S1 := ((nx * v1x + ny * v1y) * (m1 - m2)
      + (nx * (2 * m2) * v2x + ny * (2 * m2) * v2y)) / (m1 + m2) with hS1
  set T1 := -ny * v1x + nx * v1y with hT1
  set SB := ((-nx * v2x + -ny * v2y) * (m2 - m1)
      + (-nx * (2 * m1) * v1x + -ny * (2 * m1) * v1y)) / (m2 + m1) with hSB
  set TB := - -ny * v2x + -nx * v2y with hTB
  have hSS : m1 * S1 - m2 * SB
      = m1 * (nx * v1x + ny * v1y) + m2 * (nx * v2x + ny * v2y) := by
    rw [hS1, hSB]
    field_simp
    ring
  have h1 : (nx * S1 + -ny * T1) ^ 2 + (ny * S1 + nx * T1) ^ 2 = S1 ^ 2 + T1 ^ 2 := by
    linear_combination (S1 ^ 2 + T1 ^ 2) * hn
  have h2 : (-nx * SB + - -ny * TB) ^ 2 + (-ny * SB + -nx * TB) ^ 2 = SB ^ 2 + TB ^ 2 := by
    linear_combination (SB ^ 2 + TB ^ 2) * hn
  have h3 : v1x ^ 2 + v1y ^ 2 = (nx * v1x + ny * v1y) ^ 2 + T1 ^ 2 := by
    rw [hT1]
    linear_combination (-(v1x ^ 2 + v1y ^ 2)) * hn
  have h4 : v2x ^ 2 + v2y ^ 2 = (nx * v2x + ny * v2y) ^ 2 + TB ^ 2 := by
    rw [hTB]
    linear_combination (-(v2x ^ 2 + v2y ^ 2)) * hn
  have h5 : m1 * S1 ^ 2 + m2 * SB ^ 2
      = m1 * (nx * v1x + ny * v1y) ^ 2 + m2 * (nx * v2x + ny * v2y) ^ 2 := by
    rw [hS1, hSB]
    field_simp
    ring
  refine ⟨?_, ?_, ?_⟩
  · rw [hT1, hTB]
    linear_combination (-nx) * hSS + (-(m1 * v1x + m2 * v2x)) * hn
  · rw [hT1, hTB]
    linear_combination (-ny) * hSS + (-(m1 * v1y + m2 * v2y)) * hn
  · linear_combination (m1 / 2) * h3 + (m2 / 2) * h4 - (m1 / 2) * h1
      - (m2 / 2) * h2 - (1 / 2 : ℝ) * h5

/- Concrete evaluations of the resolver on the unit test pair. -/

lemma pdist_unit_rl : pdist ((1 : ℝ), 0) (0, 0) = 1 :=
  pdist_eval 1 0 0 0 1 (by norm_num) (by norm_num)

lemma pdist_unit_lr : pdist ((0 : ℝ), 0) (1, 0) = 1 :=
  pdist_eval 0 0 1 0 1 (by norm_num) (by norm_num)

lemma collisionVel_unit_1 : collisionVel cbU1 cbU2 = (0, 0) := by
  simp only [collisionVel, cbU1, cbU2, Vector.ofEnd, Vector.make]
  rw [pdist_unit_rl]
  norm_num

lemma collisionVel_unit_2 : collisionVel cbU2 cbU1 = (1, 0) := by
  simp only [collisionVel, cbU1, cbU2, Vector.ofEnd, Vector.make]
  rw [pdist_unit_lr]
  norm_num

lemma collision_unit_eval : Ball.collision cbU1 cbU2 = some (cbU1', cbU2') := by
  rw [collision_eq cbU1 cbU2
      (by simp only [cbU1, cbU2]; norm_num [Prod.ext_iff])
      (by simp only [cbU1, cbU2]; rw [pdist_unit_lr]; norm_num),
    collisionVel_unit_1, collisionVel_unit_2]
  norm_num [cbU1, cbU2, cbU1', cbU2']

/-- C1: for any two bodies with strictly positive masses and radii whose
center distance is within the collision threshold, every resolution that
completes conserves total momentum `m1*v1 + m2*v2` componentwise, exactly
over real arithmetic. -/
theorem collision_conserves_momentum (b1 b2 : Ball)
    (hm1 : 0 < b1.mass) (hm2 : 0 < b2.mass)
    (hr1 : 0 < b1.radius) (hr2 : 0 < b2.radius)
    (hcol : pdist (b1.x, b1.y) (b2.x, b2.y) < b1.radius + b2.radius)
    (p : Ball × Ball) (hp : Ball.collision b1 b2 = some p) :
    b1.mass * b1.vector.end_pos.1 + b2.mass * b2.vector.end_pos.1
      = p.1.mass * p.1.vector.end_pos.1 + p.2.mass * p.2.vector.end_pos.1
    ∧ b1.mass * b1.vector.end_pos.2 + b2.mass * b2.vector.end_pos.2
      = p.1.mass * p.1.vector.end_pos.2 + p.2.mass * p.2.vector.end_pos.2 := by
  by_cases hxy : ((b1.x, b1.y) : ℝ × ℝ) = (b2.x, b2.y)
  · rw [collision_coincident_none b1 b2 hxy (by linarith)] at hp
    cases hp
  · rw [collision_eq b1 b2 hxy hcol] at hp
    obtain rfl := (Option.some.inj hp).symm
    obtain ⟨e1, e2, _⟩ := collisionVel_conserves b1 b2 hxy (add_pos hm1 hm2).ne'
    exact ⟨e1, e2⟩

/-- Witness for C1: the unit pair (equal masses, head-on transfer). -/
theorem collision_conserves_momentum_witness :
    cbU1.mass * cbU1.vector.end_pos.1 + cbU2.mass * cbU2.vector.end_pos.1
      = cbU1'.mass * cbU1'.vector.end_pos.1 + cbU2'.mass * cbU2'.vector.end_pos.1
    ∧ cbU1.mass * cbU1.vector.end_pos.2 + cbU2.mass * cbU2.vector.end_pos.2
      = cbU1'.mass * cbU1'.vector.end_pos.2 + cbU2'.mass * cbU2'.vector.end_pos.2 :=
  collision_conserves_momentum cbU1 cbU2
    (by norm_num [cbU1]) (by norm_num [cbU2]) (by norm_num [cbU1]) (by norm_num [cbU2])
    (by simp only [cbU1, cbU2]; rw [pdist_unit_lr]; norm_num)
    (cbU1', cbU2') collision_unit_eval

/-- C2: under the same hypotheses as C1, every resolution that completes
conserves total kinetic energy `Σ (1/2)·m·|v|²`, exactly over real
arithmetic. -/
theorem collision_conserves_energy (b1 b2 : Ball)
    (hm1 : 0 < b1.mass) (hm2 : 0 < b2.mass)
    (hr1 : 0 < b1.radius) (hr2 : 0 < b2.radius)
    (hcol : pdist (b1.x, b1.y) (b2.x, b2.y) < b1.radius + b2.radius)
    (p : Ball × Ball) (hp : Ball.collision b1 b2 = some p) :
    1 / 2 * b1.mass * (b1.vector.end_pos.1 ^ 2 + b1.vector.end_pos.2 ^ 2)
      + 1 / 2 * b2.mass * (b2.vector.end_pos.1 ^ 2 + b2.vector.end_pos.2 ^ 2)
      = 1 / 2 * p.1.mass * (p.1.vector.end_pos.1 ^ 2 + p.1.vector.end_pos.2 ^ 2)
      + 1 / 2 * p.2.mass * (p.2.vector.end_pos.1 ^ 2 + p.2.vector.end_pos.2 ^ 2) := by
  by_cases hxy : ((b1.x, b1.y) : ℝ × ℝ) = (b2.x, b2.y)
  · rw [collision_coincident_none b1 b2 hxy (by linarith)] at hp
    cases hp
  · rw [collision_eq b1 b2 hxy hcol] at hp
    obtain rfl := (Option.some.inj hp).symm
    obtain ⟨_, _, e3⟩ := collisionVel_conserves b1 b2 hxy (add_pos hm1 hm2).ne'
    exact e3

/-- Witness for C2: the unit pair (equal masses, head-on transfer). -/
theorem collision_conserves_energy_witness :
    1 / 2 * cbU1.mass * (cbU1.vector.end_pos.1 ^ 2 + cbU1.vector.end_pos.2 ^ 2)
      + 1 / 2 * cbU2.mass * (cbU2.vector.end_pos.1 ^ 2 + cbU2.vector.end_pos.2 ^ 2)
      = 1 / 2 * cbU1'.mass * (cbU1'.vector.end_pos.1 ^ 2 + cbU1'.vector.end_pos.2 ^ 2)
      + 1 / 2 * cbU2'.mass * (cbU2'.vector.end_pos.1 ^ 2 + cbU2'.vector.end_pos.2 ^ 2) :=
  collision_conserves_energy cbU1 cbU2
    (by norm_num [cbU1]) (by norm_num [cbU2]) (by norm_num [cbU1]) (by norm_num [cbU2])
    (by simp only [cbU1, cbU2]; rw [pdist_unit_lr]; norm_num)
    (cbU1', cbU2') collision_unit_eval

/- C3: simultaneity of the pairwise update. -/

/-- C3: both output velocities of a successful resolution are
`calculate_velocity` of the pre-collision bodies (neither uses the other's
already-updated velocity), the resolver agrees with the spec's
simultaneous-update description, and consequently the response is
order-symmetric: resolving (B, A) yields exactly the swapped pair, which
would fail under a sequential update. -/
theorem collision_simultaneous (b1 b2 : Ball) (p : Ball × Ball)
    (hp : Ball.collision b1 b2 = some p)
    (hcol : pdist (b1.x, b1.y) (b2.x, b2.y) < b1.radius + b2.radius) :
    Ball.collision b1 b2 = collisionSimultaneousSpec b1 b2
    ∧ Ball.calculate_velocity b1 b2 = some p.1.vector
    ∧ Ball.calculate_velocity b2 b1 = some p.2.vector
    ∧ Ball.collision b2 b1 = some (p.2, p.1) := by
  by_cases hxy : ((b1.x, b1.y) : ℝ × ℝ) = (b2.x, b2.y)
  · have h0 : pdist (b1.x, b1.y) (b2.x, b2.y) = 0 := (pdist_eq_zero_iff _ _).mpr hxy
    have hr : 0 < b1.radius + b2.radius := by linarith [hcol, h0]
    rw [collision_coincident_none b1 b2 hxy hr] at hp
    cases hp
  · have hq1 : pdist (b2.x, b2.y) (b1.x, b1.y) ≠ 0 := by
      rw [Ne, pdist_eq_zero_iff]
      intro h
      exact hxy h.symm
    have hq2 : pdist (b1.x, b1.y) (b2.x, b2.y) ≠ 0 := by
      rw [Ne, pdist_eq_zero_iff]
      exact hxy
    rw [collision_eq b1 b2 hxy hcol] at hp
    obtain rfl := (Option.some.inj hp).symm
    have hxy' : ((b2.x, b2.y) : ℝ × ℝ) ≠ (b1.x, b1.y) := fun h => hxy h.symm
    have hcol' : pdist (b2.x, b2.y) (b1.x, b1.y) < b2.radius + b1.radius := by
      rw [pdist_comm]
      linarith
    exact ⟨rfl, calculate_velocity_eq b1 b2 hq1, calculate_velocity_eq b2 b1 hq2,
      collision_eq b2 b1 hxy' hcol'⟩

/-- Witness for C3 at the unit pair. -/
theorem collision_simultaneous_witness :
    Ball.collision cbU1 cbU2 = collisionSimultaneousSpec cbU1 cbU2
    ∧ Ball.calculate_velocity cbU1 cbU2 = some cbU1'.vector
    ∧ Ball.calculate_velocity cbU2 cbU1 = some cbU2'.vector
    ∧ Ball.collision cbU2 cbU1 = some (cbU2', cbU1') :=
  collision_simultaneous cbU1 cbU2 (cbU1', cbU2') collision_unit_eval
    (by simp only [cbU1, cbU2]; rw [pdist_unit_lr]; norm_num)

/- C4: the trigger condition is strict. -/

lemma pdist_tangent_rl : pdist ((2 : ℝ), 0) (0, 0) = 2 :=
  pdist_eval 2 0 0 0 2 (by norm_num) (by norm_num)

lemma pdist_tangent_lr : pdist ((0 : ℝ), 0) (2, 0) = 2 :=
  pdist_eval 0 0 2 0 2 (by norm_num) (by norm_num)

lemma collisionVel_tangent_1 : collisionVel cbT1 cbT2 = (-1, 0) := by
  simp only [collisionVel, cbT1, cbT2, Vector.ofEnd, Vector.make]
  rw [pdist_tangent_rl]
  norm_num

/-- Counterexample to C4 as stated: the tangent pair `cbT1`, `cbT2` has
center distance exactly equal to the sum of radii, yet `collision` is a
no-op there (the source trigger is the strict `<`), even though the elastic
response would have changed the first body's velocity. -/
theorem collision_tangency_counterexample :
    pdist (cbT1.x, cbT1.y) (cbT2.x, cbT2.y) = cbT1.radius + cbT2.radius
    ∧ Ball.collision cbT1 cbT2 = some (cbT1, cbT2)
    ∧ Ball.calculate_velocity cbT1 cbT2 ≠ some cbT1.vector := by
  have htan : pdist (cbT1.x, cbT1.y) (cbT2.x, cbT2.y) = 2 := by
    simp only [cbT1, cbT2]
    exact pdist_tangent_lr
  have hne : pdist (cbT2.x, cbT2.y) (cbT1.x, cbT1.y) ≠ 0 := by
    simp only [cbT1, cbT2]
    rw [pdist_tangent_rl]
    norm_num
  refine ⟨by rw [htan]; norm_num [cbT1, cbT2], ?_, ?_⟩
  · unfold Ball.collision
    rw [if_neg]
    rw [htan]
    norm_num [cbT1, cbT2]
  · rw [calculate_velocity_eq cbT1 cbT2 hne, collisionVel_tangent_1]
    intro hEq
    have h1 := congrArg (fun v => (Option.map (fun w => w.end_pos.1) v)) hEq
    norm_num [Vector.ofEnd, Vector.make, cbT1] at h1

/-- C4 amended: the response is applied exactly when the center distance is
strictly below the sum of radii; at exact tangency or farther the pair is
left unchanged (no-op), and below the threshold (with distinct centers) the
resolver writes the computed pair of response velocities. -/
theorem collision_trigger_strict (b1 b2 : Ball) :
    (b1.radius + b2.radius ≤ pdist (b1.x, b1.y) (b2.x, b2.y) →
      Ball.collision b1 b2 = some (b1, b2))
    ∧ (pdist (b1.x, b1.y) (b2.x, b2.y) < b1.radius + b2.radius →
      ((b1.x, b1.y) : ℝ × ℝ) ≠ (b2.x, b2.y) →
      Ball.collision b1 b2
        = some ({ b1 with vector := Vector.ofEnd (collisionVel b1 b2) },
                { b2 with vector := Vector.ofEnd (collisionVel b2 b1) })) := by
  constructor
  · intro h
    unfold Ball.collision
    rw [if_neg (not_lt.mpr h)]
  · intro h hne
    exact collision_eq b1 b2 hne h

/-- Witness for C4 amended: no-op at tangency, response below threshold. -/
theorem collision_trigger_strict_witness :
    Ball.collision cbT1 cbT2 = some (cbT1, cbT2)
    ∧ Ball.collision cbU1 cbU2
        = some ({ cbU1 with vector := Vector.ofEnd (collisionVel cbU1 cbU2) },
                { cbU2 with vector := Vector.ofEnd (collisionVel cbU2 cbU1) }) :=
  ⟨(collision_trigger_strict cbT1 cbT2).1
      (by simp only [cbT1, cbT2]; rw [pdist_tangent_lr]; norm_num),
   (collision_trigger_strict cbU1 cbU2).2
      (by simp only [cbU1, cbU2]; rw [pdist_unit_lr]; norm_num)
      (by simp only [cbU1, cbU2]; norm_num [Prod.ext_iff])⟩

/- C5 and C9: the per-tick boundary update. -/

/-- Counterexample to C5 as stated: for `cbW` (x = 99, radius 5, velocity
(1, 0)) on a 100-wide plane, the boundary update does NOT leave the position
alone: the final x is 94 = (100 - 5) + (-1), not 98 = 99 + (-1), so position
was rewritten (clamped) by the reflection step. -/
theorem update_moves_position_counterexample :
    (Ball.update cbW 100 100).x ≠ cbW.x + (Ball.update cbW 100 100).vector.end_pos.1 := by
  simp only [Ball.update, cbW, Vector.ofEnd, Vector.make]
  norm_num

/-- C5 amended: a detected x-axis edge crossing negates the x velocity
component AND rewrites the x position to the boundary-adjacent value
`|aW - r|` before the flipped velocity is added; the reflection is not
velocity-only. -/
theorem update_reflection_clamps (b : Ball) (W H : ℝ)
    (hx : b.x + b.radius > W ∨ b.x - b.radius < 0) :
    (Ball.update b W H).vector.end_pos.1 = -b.vector.end_pos.1
    ∧ (Ball.update b W H).x
      = |(if b.x + b.radius > W then W else 0) - b.radius| + -b.vector.end_pos.1 := by
  simp only [Ball.update]
  rw [if_pos hx, if_pos hx]
  exact ⟨rfl, rfl⟩

/-- Witness for C5 amended at the concrete ball `cbW`. -/
theorem update_reflection_clamps_witness :
    (Ball.update cbW 100 100).vector.end_pos.1 = -cbW.vector.end_pos.1
    ∧ (Ball.update cbW 100 100).x
      = |(if cbW.x + cbW.radius > (100 : ℝ) then (100 : ℝ) else 0) - cbW.radius|
        + -cbW.vector.end_pos.1 :=
  update_reflection_clamps cbW 100 100 (by norm_num [cbW])

/-- C9: whenever an axis boundary crossing is detected, the position on that
axis is set to the boundary-adjacent value (`planeBound - radius` when the
leading edge exceeded the far bound, `radius` when the trailing edge crossed
zero) before the flipped velocity is added; an axis with no crossing keeps
its coordinate until the velocity is added. -/
theorem update_position_rule (b : Ball) (W H : ℝ)
    (hr0 : 0 ≤ b.radius) (hrW : b.radius ≤ W) (hrH : b.radius ≤ H) :
    (Ball.update b W H).x
      = (if b.x + b.radius > W then W - b.radius
         else if b.x - b.radius < 0 then b.radius else b.x)
        + (if b.x + b.radius > W ∨ b.x - b.radius < 0
           then -b.vector.end_pos.1 else b.vector.end_pos.1)
    ∧ (Ball.update b W H).y
      = (if b.y + b.radius > H then H - b.radius
         else if b.y - b.radius < 0 then b.radius else b.y)
        + (if b.y + b.radius > H ∨ b.y - b.radius < 0
           then -b.vector.end_pos.2 else b.vector.end_pos.2) := by
  simp only [Ball.update]
  constructor
  · by_cases hA : b.x + b.radius > W
    · have hOr : b.x + b.radius > W ∨ b.x - b.radius < 0 := Or.inl hA
      rw [if_pos hOr, if_pos hOr, if_pos hA, if_pos hA,
        abs_of_nonneg (by linarith : (0 : ℝ) ≤ W - b.radius)]
    · by_cases hB : b.x - b.radius < 0
      · have hOr : b.x + b.radius > W ∨ b.x - b.radius < 0 := Or.inr hB
        rw [if_pos hOr, if_pos hOr, if_neg hA, if_neg hA, if_pos hB, zero_sub, abs_neg,
          abs_of_nonneg hr0]
      · have hOr : ¬(b.x + b.radius > W ∨ b.x - b.radius < 0) := by tauto
        rw [if_neg hOr, if_neg hOr, if_neg hA, if_neg hB]
  · by_cases hA : b.y + b.radius > H
    · have hOr : b.y + b.radius > H ∨ b.y - b.radius < 0 := Or.inl hA
      rw [if_pos hOr, if_pos hOr, if_pos hA, if_pos hA,
        abs_of_nonneg (by linarith : (0 : ℝ) ≤ H - b.radius)]
    · by_cases hB : b.y - b.radius < 0
      · have hOr : b.y + b.radius > H ∨ b.y - b.radius < 0 := Or.inr hB
        rw [if_pos hOr, if_pos hOr, if_neg hA, if_neg hA, if_pos hB, zero_sub, abs_neg,
          abs_of_nonneg hr0]
      · have hOr : ¬(b.y + b.radius > H ∨ b.y - b.radius < 0) := by tauto
        rw [if_neg hOr, if_neg hOr, if_neg hA, if_neg hB]

/-- Witness for C9 at the concrete ball `cbW` on a 100 by 100 plane. -/
theorem update_position_rule_witness :
    (Ball.update cbW 100 100).x
      = (if cbW.x + cbW.radius > (100 : ℝ) then (100 : ℝ) - cbW.radius
         else if cbW.x - cbW.radius < 0 then cbW.radius else cbW.x)
        + (if cbW.x + cbW.radius > (100 : ℝ) ∨ cbW.x - cbW.radius < 0
           then -cbW.vector.end_pos.1 else cbW.vector.end_pos.1)
    ∧ (Ball.update cbW 100 100).y
      = (if cbW.y + cbW.radius > (100 : ℝ) then (100 : ℝ) - cbW.radius
         else if cbW.y - cbW.radius < 0 then cbW.radius else cbW.y)
        + (if cbW.y + cbW.radius > (100 : ℝ) ∨ cbW.y - cbW.radius < 0
           then -cbW.vector.end_pos.2 else cbW.vector.end_pos.2) :=
  update_position_rule cbW 100 100 (by norm_num [cbW]) (by norm_num [cbW]) (by norm_num [cbW])

/- C6: a zero-length collision normal is not caught. -/

/-- Counterexample to C6 as stated: for the coincident pair the resolver
does not skip the pair (it would have returned `some (cbS1, cbS2)`); the
division by zero inside `normalize` escapes as an error (`none`). -/
theorem collision_coincident_counterexample :
    Ball.collision cbS1 cbS2 = none
    ∧ Ball.collision cbS1 cbS2 ≠ some (cbS1, cbS2) := by
  have h := collision_coincident_none cbS1 cbS2 (by norm_num [cbS1, cbS2])
    (by norm_num [cbS1, cbS2])
  exact ⟨h, by rw [h]; simp⟩

/-- C6 amended: when two bodies occupy the same position (with positive
radius sum) the normalization failure is NOT caught anywhere: the collision
call fails with the uncaught division-by-zero error, and the failure
propagates through the whole pairwise resolution pass of the tick. -/
theorem collision_coincident_propagates (b1 b2 : Ball)
    (hxy : ((b1.x, b1.y) : ℝ × ℝ) = (b2.x, b2.y)) (hr : 0 < b1.radius + b2.radius) :
    Ball.collision b1 b2 = none ∧ resolvePairs [b1, b2] = none := by
  have h := collision_coincident_none b1 b2 hxy hr
  refine ⟨h, ?_⟩
  simp [resolvePairs, resolvePairsAux, collideWithAll, h]

/-- Witness for C6 amended at the coincident pair. -/
theorem collision_coincident_propagates_witness :
    Ball.collision cbS1 cbS2 = none ∧ resolvePairs [cbS1, cbS2] = none :=
  collision_coincident_propagates cbS1 cbS2 (by norm_num [cbS1, cbS2])
    (by norm_num [cbS1, cbS2])

/- C7: the right-click removal. -/

lemma pdist_origin : pdist ((0 : ℝ), (0 : ℝ)) (0, 0) = 0 :=
  (pdist_eq_zero_iff _ _).mpr rfl

lemma pdist_far : pdist ((50 : ℝ), 0) (0, 0) = 50 :=
  pdist_eval 50 0 0 0 50 (by norm_num) (by norm_num)

/-- Auxiliary: the removal loop never lengthens the collection. -/
lemma removeBalls_length_le (pos : ℝ × ℝ) :
    ∀ l : List Ball, (removeBalls pos l).length ≤ l.length
  | [] => by simp [removeBalls]
  | [b] => by
    by_cases h : pdist (b.x, b.y) pos < b.radius <;> simp [removeBalls, h]
  | b :: c :: rest => by
    by_cases h : pdist (b.x, b.y) pos < b.radius
    · simp only [removeBalls, if_pos h, List.length_cons]
      have := removeBalls_length_le pos rest
      omega
    · simp only [removeBalls, if_neg h, List.length_cons]
      have := removeBalls_length_le pos (c :: rest)
      simp only [List.length_cons] at this
      omega

/-- Auxiliary: the removal loop is the identity exactly when no ball
contains the point. -/
lemma removeBalls_eq_self_iff (pos : ℝ × ℝ) :
    ∀ l : List Ball,
      (removeBalls pos l = l ↔ ∀ b ∈ l, ¬ pdist (b.x, b.y) pos < b.radius)
  | [] => by simp [removeBalls]
  | [b] => by
    by_cases h : pdist (b.x, b.y) pos < b.radius
    · simp [removeBalls, h]
    · simp only [removeBalls, if_neg h]
      constructor
      · intro _ b' hb'
        obtain rfl : b' = b := by simpa using hb'
        exact h
      · intro _
        trivial
  | b :: c :: rest => by
    by_cases h : pdist (b.x, b.y) pos < b.radius
    · simp only [removeBalls, if_pos h]
      constructor
      · intro hEq
        exfalso
        have hl := congrArg List.length hEq
        simp only [List.length_cons] at hl
        have := removeBalls_length_le pos rest
        omega
      · intro hAll
        exact absurd h (hAll b (by simp))
    · simp only [removeBalls, if_neg h]
      constructor
      · intro hEq
        have ht : removeBalls pos (c :: rest) = c :: rest := by
          injection hEq
        intro b' hb'
        rcases List.mem_cons.mp hb' with rfl | hmem
        · exact h
        · exact ((removeBalls_eq_self_iff pos (c :: rest)).mp ht) b' hmem
      · intro hAll
        have : removeBalls pos (c :: rest) = c :: rest :=
          (removeBalls_eq_self_iff pos (c :: rest)).mpr
            (fun b' hb' => hAll b' (List.mem_cons_of_mem _ hb'))
        rw [this]

/-- Auxiliary: a match strictly shrinks the collection. -/
lemma removeBalls_length_lt (pos : ℝ × ℝ) :
    ∀ l : List Ball, (∃ b ∈ l, pdist (b.x, b.y) pos < b.radius) →
      (removeBalls pos l).length < l.length
  | [] => by simp
  | [b] => by
    intro hEx
    obtain ⟨b', hb', hp⟩ := hEx
    obtain rfl : b' = b := by simpa using hb'
    simp [removeBalls, hp]
  | b :: c :: rest => by
    intro hEx
    by_cases h : pdist (b.x, b.y) pos < b.radius
    · simp only [removeBalls, if_pos h, List.length_cons]
      have := removeBalls_length_le pos rest
      omega
    · simp only [removeBalls, if_neg h, List.length_cons]
      have hrec : (removeBalls pos (c :: rest)).length < (c :: rest).length := by
        apply removeBalls_length_lt pos (c :: rest)
        obtain ⟨b', hb', hp⟩ := hEx
        rcases List.mem_cons.mp hb' with rfl | hmem
        · exact absurd hp h
        · exact ⟨b', hmem, hp⟩
      simp only [List.length_cons] at hrec
      omega

/-- Counterexample to C7 as stated: three balls all containing the removal
point (0, 0); the loop removes the first AND the third (the second is
skipped by the index shift), so more than one body is deleted. -/
theorem remove_multiple_counterexample :
    removeBalls (0, 0) [cbA, cbB, cbC] = [cbB] := by
  have hA : pdist ((0 : ℝ), (0 : ℝ)) (0, 0) < 10 := by
    rw [pdist_origin]
    norm_num
  have hC : pdist ((2 : ℝ), (0 : ℝ)) (0, 0) < 10 := by
    rw [show pdist ((2 : ℝ), (0 : ℝ)) (0, 0) = 2 from pdist_tangent_rl]
    norm_num
  simp only [removeBalls, cbA, cbB, cbC]
  rw [if_pos hA, if_pos hC]

/-- C7 amended: the removal is a no-op exactly when no body's radius
contains the point; when at least one body contains it the collection
strictly shrinks (the first match is removed, and because iteration
continues over the mutated list, the element after each removal is skipped
and later matches may also be removed). -/
theorem remove_first_match (pos : ℝ × ℝ) (l : List Ball) :
    (removeBalls pos l = l ↔ ∀ b ∈ l, ¬ pdist (b.x, b.y) pos < b.radius)
    ∧ ((∃ b ∈ l, pdist (b.x, b.y) pos < b.radius) →
        (removeBalls pos l).length < l.length) :=
  ⟨removeBalls_eq_self_iff pos l, removeBalls_length_lt pos l⟩

/-- Witness for C7 amended: a non-matching singleton is untouched; the
three-ball matching list strictly shrinks. -/
theorem remove_first_match_witness :
    removeBalls (0, 0) [cbF] = [cbF]
    ∧ (removeBalls (0, 0) [cbA, cbB, cbC]).length < 3 := by
  constructor
  · apply (remove_first_match (0, 0) [cbF]).1.mpr
    intro b hb
    obtain rfl : b = cbF := by simpa using hb
    simp only [cbF]
    rw [pdist_far]
    norm_num
  · have h := (remove_first_match (0, 0) [cbA, cbB, cbC]).2
      ⟨cbA, by simp, by simp only [cbA]; rw [pdist_origin]; norm_num⟩
    simpa using h

/- C8: the constructor performs no validation. -/

/-- Counterexample to C8 as stated: constructing a Ball with radius -1 does
not fail; the constructor stores radius -1 and mass -1 unchanged. -/
theorem init_accepts_nonpositive_counterexample :
    (Ball.init (0, 0) (-1) 0 0).radius = -1 ∧ (Ball.init (0, 0) (-1) 0 0).mass = -1 :=
  ⟨rfl, rfl⟩

/-- C8 amended: `Ball.__init__` performs no parameter validation: a radius
that is ≤ 0 is accepted verbatim (no error, no clamping) and mass is set
equal to the radius. -/
theorem init_no_validation (center : ℝ × ℝ) (r v a : ℝ) (_hr : r ≤ 0) :
    (Ball.init center r v a).radius = r ∧ (Ball.init center r v a).mass = r :=
  ⟨rfl, rfl⟩

/-- Witness for C8 amended at radius -1. -/
theorem init_no_validation_witness :
    (Ball.init (3, 4) (-1) 0 0).radius = -1 ∧ (Ball.init (3, 4) (-1) 0 0).mass = -1 :=
  init_no_validation (3, 4) (-1) 0 0 (by norm_num)

/- C10: the cached-length invariant of held velocity vectors. -/

/-- C10: every velocity vector held by a body has `start_pos = (0, 0)` and a
cached `length` equal to the Euclidean distance from its end point to its
start point: the constructor establishes it, and both the boundary update
(whose in-place component negation leaves the cache stale but still correct,
since negating one component preserves the Euclidean norm from the origin)
and the collision resolver preserve it. -/
theorem velocity_length_invariant (c : ℝ × ℝ) (r v a : ℝ) (b : Ball) (W H : ℝ)
    (b1 b2 : Ball) (p : Ball × Ball)
    (hb : velInv b.vector) (hp : Ball.collision b1 b2 = some p)
    (h1 : velInv b1.vector) (h2 : velInv b2.vector) :
    velInv (Ball.init c r v a).vector
    ∧ velInv (Ball.update b W H).vector
    ∧ velInv p.1.vector ∧ velInv p.2.vector := by
  obtain ⟨hs, hl⟩ := hb
  have hupd : velInv (Ball.update b W H).vector := by
    constructor
    · exact hs
    · simp only [Ball.update]
      rw [hs] at hl
      rw [hl, hs]
      by_cases hx : b.x + b.radius > W ∨ b.x - b.radius < 0 <;>
        by_cases hy : b.y + b.radius > H ∨ b.y - b.radius < 0 <;>
          simp only [hx, hy, if_true, if_false] <;>
            (unfold pdist; dsimp only; congr 1; ring)
  have hcolres : velInv p.1.vector ∧ velInv p.2.vector := by
    by_cases htr : pdist (b1.x, b1.y) (b2.x, b2.y) < b1.radius + b2.radius
    · by_cases hxy : ((b1.x, b1.y) : ℝ × ℝ) = (b2.x, b2.y)
      · have h0 := (pdist_eq_zero_iff (b1.x, b1.y) (b2.x, b2.y)).mpr hxy
        rw [collision_coincident_none b1 b2 hxy (by linarith)] at hp
        cases hp
      · rw [collision_eq b1 b2 hxy htr] at hp
        obtain rfl := (Option.some.inj hp).symm
        exact ⟨⟨rfl, rfl⟩, ⟨rfl, rfl⟩⟩
    · unfold Ball.collision at hp
      rw [if_neg htr] at hp
      obtain rfl := (Option.some.inj hp).symm
      exact ⟨h1, h2⟩
  exact ⟨⟨rfl, rfl⟩, hupd, hcolres.1, hcolres.2⟩

/-- Witness for C10: constructor, boundary update of `cbW`, and the resolved
unit pair. -/
theorem velocity_length_invariant_witness :
    velInv (Ball.init (0, 0) 1 0 0).vector
    ∧ velInv (Ball.update cbW 100 100).vector
    ∧ velInv cbU1'.vector ∧ velInv cbU2'.vector :=
  velocity_length_invariant (0, 0) 1 0 0 cbW 100 100 cbU1 cbU2 (cbU1', cbU2')
    ⟨rfl, rfl⟩ collision_unit_eval ⟨rfl, rfl⟩ ⟨rfl, rfl⟩

end Billiard
